import Mathlib

/-!
# Verification of the expense-tracker data-handling core

A shallow embedding of `src/app.py` (a Streamlit expense tracker) and proofs
about its data-handling contract.

Modelling conventions:

* Text is modelled as `List Char` (`Str`).  Python's `str.lower` is modelled by
  ASCII `Char.toLower`, `str.strip` by dropping `Char.isWhitespace` characters
  from both ends.
* Python `float` amounts are modelled as `ℚ`.  The numeric text written by
  `DataFrame.to_csv` round-trips through `pd.to_numeric` within floating-point
  tolerance, so a stored amount cell is abstracted to `Option ℚ`: `some q` for
  a cell whose text denotes the number `q`, `none` for a cell whose text is not
  numeric (`pd.to_numeric(..., errors="coerce")` turns it into NaN).
* A stored CSV row (`StoredRow`) keeps the `date`, `category` and `note` cells
  as text.  `pd.read_csv` turns any cell equal to one of pandas' default NA
  sentinel strings (and the empty cell) into NaN; `naSentinels`/`isNACell`
  model that list.
* `pd.to_datetime(..., errors="coerce").dt.date` is modelled by an ISO-8601
  parser (`parseDate`); the store always holds ISO text (`str(date)`, modelled
  by `dateToChars`).  pandas nanosecond timestamps only cover
  1677-09-21 00:12:43 to 2262-04-11 23:47:16, so the calendar dates whose
  midnight is representable run from 1677-09-22 to 2262-04-11; dates outside
  that window coerce to NaT, which the parser mirrors with an explicit bounds
  check.
* `df.sort_values(by, ascending=False)` computes an ascending argsort of the
  column and reverses the indexer (`pandas.core.sorting.nargsort`).  For the
  small frames at issue numpy's quicksort is insertion sort, which is stable,
  so the operation is modelled as a stable insertion sort followed by
  `List.reverse`.
* `df.groupby("category")` (default `sort=True`) enumerates groups in
  ascending key order, modelled by sorting the distinct categories with the
  lexicographic code-point order `strLe`.
-/

namespace ExpenseTracker

/-- Text, modelled as a list of characters. -/
abbrev Str := List Char

/-- ASCII lowering of a text, modelling Python's `str.lower`. -/
def lowerStr (s : Str) : Str := s.map Char.toLower

/-- Strip leading and trailing whitespace, modelling Python's `str.strip()`. -/
def trim (s : Str) : Str :=
  ((s.dropWhile Char.isWhitespace).reverse.dropWhile Char.isWhitespace).reverse

/-- Lexicographic (code-point) order on text, modelling Python `str` order,
which pandas uses to order `groupby` keys. -/
def strLe : Str → Str → Bool
  | [], _ => true
  | _ :: _, [] => false
  | a :: as, b :: bs =>
    if a = b then strLe as bs else decide (a.toNat < b.toNat)

/-- The fixed category set from `src/app.py` line 16 (`CATEGORIES`). -/
def CATEGORIES : List Str :=
  ["Food".data, "Rent".data, "Transport".data, "Groceries".data,
   "Entertainment".data, "Shopping".data, "Health".data, "Other".data]

/-- pandas' default `na_values` sentinel strings: `pd.read_csv` converts a cell
equal to one of these (or an empty cell) into NaN. -/
def naSentinels : List Str :=
  ["".data, "#N/A".data, "#N/A N/A".data, "#NA".data, "-1.#IND".data,
   "-1.#QNAN".data, "-NaN".data, "-nan".data, "1.#IND".data, "1.#QNAN".data,
   "<NA>".data, "N/A".data, "NA".data, "NULL".data, "NaN".data, "None".data,
   "n/a".data, "nan".data, "null".data]

/-- Does `pd.read_csv` read this cell text as NaN? -/
def isNACell (s : Str) : Bool := decide (s ∈ naSentinels)

/-! ## Calendar dates and the ISO codec -/

/-- A calendar date (no time component), modelling Python's `datetime.date`. -/
structure Date where
  year : Nat
  month : Nat
  day : Nat
deriving DecidableEq

/-- Gregorian leap-year rule. -/
def isLeapYear (y : Nat) : Bool :=
  (y % 4 == 0 && y % 100 != 0) || y % 400 == 0

/-- Number of days in a month of a given year. -/
def daysInMonth (y m : Nat) : Nat :=
  if m = 2 then (if isLeapYear y then 29 else 28)
  else if m = 4 ∨ m = 6 ∨ m = 9 ∨ m = 11 then 30 else 31

/-- The invariant `datetime.date` enforces on its fields. -/
def ValidDate (d : Date) : Prop :=
  1 ≤ d.year ∧ d.year ≤ 9999 ∧ 1 ≤ d.month ∧ d.month ≤ 12 ∧
    1 ≤ d.day ∧ d.day ≤ daysInMonth d.year d.month

instance : DecidablePred ValidDate := fun d => by
  unfold ValidDate; infer_instance

/-- Chronological order on dates (lexicographic on year, month, day). -/
def dateLe (a b : Date) : Bool :=
  decide (a.year < b.year ∨ (a.year = b.year ∧
    (a.month < b.month ∨ (a.month = b.month ∧ a.day ≤ b.day))))

/-- Earliest calendar date whose midnight a pandas nanosecond timestamp can
represent.  `pd.Timestamp.min` is 1677-09-21 00:12:43.145224193, so midnight
of 1677-09-21 itself underflows the int64 nanosecond range and
`pd.to_datetime("1677-09-21", errors="coerce")` is already NaT; the first
representable whole date is 1677-09-22. -/
def minTimestampDate : Date := ⟨1677, 9, 22⟩

/-- Latest calendar date whose midnight a pandas nanosecond timestamp can
represent (`pd.Timestamp.max` is 2262-04-11 23:47:16.854775807, so midnight
of 2262-04-11 is still in range). -/
def maxTimestampDate : Date := ⟨2262, 4, 11⟩

/-- Is the date inside the window pandas timestamps can represent?
`pd.to_datetime(..., errors="coerce")` turns dates outside it into NaT. -/
def InTimestampBounds (d : Date) : Prop :=
  dateLe minTimestampDate d = true ∧ dateLe d maxTimestampDate = true

instance : DecidablePred InTimestampBounds := fun d => by
  unfold InTimestampBounds; infer_instance

/-- The character for a single decimal digit. -/
def digitChar (d : Nat) : Char := Char.ofNat (48 + d)

/-- The decimal value of a digit character. -/
def digitVal (c : Char) : Nat := c.toNat - 48

/-- Little-endian base-10 digits, with explicit fuel so the kernel can
evaluate it (on `natDigits` the fuel is always sufficient). -/
def digitsAux : Nat → Nat → List Nat
  | 0, _ => []
  | _ + 1, 0 => []
  | fuel + 1, n + 1 => (n + 1) % 10 :: digitsAux fuel ((n + 1) / 10)

/-- Little-endian base-10 digits of `n` (empty for `0`). -/
def natDigits (n : Nat) : List Nat := digitsAux n n

/-- Decimal text of `n` (empty for `0`; always used zero-padded below). -/
def natChars (n : Nat) : Str := (natDigits n).reverse.map digitChar

/-- Decimal text of `n`, left-padded with zeros to width `w`, as produced by
`datetime.date.isoformat` for the year (width 4), month and day (width 2). -/
def padNum (w n : Nat) : Str :=
  List.replicate (w - (natChars n).length) '0' ++ natChars n

/-- ISO text of a date, modelling `str(d)` for a Python `datetime.date`
(`save_expenses` line 40 stores dates via `astype(str)`). -/
def dateToChars (d : Date) : Str :=
  padNum 4 d.year ++ '-' :: (padNum 2 d.month ++ '-' :: padNum 2 d.day)

/-- Parse a run of decimal digit characters (at least one). -/
def parseNatAux (cs : Str) : Option Nat :=
  if cs ≠ [] ∧ cs.all Char.isDigit then
    some (Nat.ofDigits 10 ((cs.map digitVal).reverse))
  else none

/-- Expect a leading date separator `'-'` and return what follows it. -/
def expectDash : Str → Option Str
  | '-' :: rest => some rest
  | _ => none

/-- Parse an ISO-8601 calendar date, modelling
`pd.to_datetime(col, errors="coerce").dt.date` on the ISO text this
application stores: unparseable text and dates outside pandas' timestamp
bounds yield `none` (NaT). -/
def parseDate (cs : Str) : Option Date :=
  (parseNatAux (cs.take 4)).bind fun y =>
    (expectDash (cs.drop 4)).bind fun rest =>
      (parseNatAux (rest.take 2)).bind fun m =>
        (expectDash (rest.drop 2)).bind fun ds =>
          (parseNatAux ds).bind fun d =>
            if 1 ≤ y ∧ 1 ≤ m ∧ m ≤ 12 ∧ 1 ≤ d ∧ d ≤ daysInMonth y m ∧
                dateLe minTimestampDate ⟨y, m, d⟩ = true ∧
                dateLe ⟨y, m, d⟩ maxTimestampDate = true then
              some { year := y, month := m, day := d }
            else none

/-! ## The data model -/

/-- An in-memory expense record: one row of the working `DataFrame` after
`load_expenses` has cleaned the column types. -/
structure Expense where
  date : Date
  category : Str
  amount : ℚ
  note : Str
deriving DecidableEq

/-- One row of the persisted CSV store: `date`, `category` and `note` as cell
text, `amount` abstracted to the number its text denotes (`none` when the text
is not numeric, i.e. `pd.to_numeric(..., errors="coerce")` gives NaN). -/
structure StoredRow where
  date : Str
  category : Str
  amount : Option ℚ
  note : Str
deriving DecidableEq

/-! ## The Record Store Codec (`load_expenses`, `save_expenses`) -/

/-- Row-wise cleaning in `load_expenses` (lines 25-33): parse the date cell,
keep the amount only if numeric, coerce the category cell with `astype(str)`
(a NaN cell becomes the string `"nan"`), default an absent/NA note to `""`
(`fillna("")`), and drop the row when date or amount fails. -/
def loadRow (r : StoredRow) : Option Expense :=
  match parseDate r.date, r.amount with
  | some d, some a =>
    some { date := d
           category := if isNACell r.category then "nan".data else r.category
           amount := a
           note := if isNACell r.note then [] else r.note }
  | _, _ => none

/-- `load_expenses` (lines 20-34): a missing store file (`none`) yields the
empty frame; otherwise each row is cleaned and broken rows are dropped. -/
def load_expenses : Option (List StoredRow) → List Expense
  | none => []
  | some rows => rows.filterMap loadRow

/-- Serialization of one record for `save_expenses`: the date becomes its ISO
text (`astype(str)`), category and note are written as their text, the amount
as numeric text (abstracted to `some` of its value). -/
def saveRow (e : Expense) : StoredRow :=
  { date := dateToChars e.date
    category := e.category
    amount := some e.amount
    note := e.note }

/-- `save_expenses` (lines 37-41) at mutation granularity: the function copies
the frame (`df.copy()`), stringifies the date column of the copy only, and
writes the copy to the store.  The first component is the caller's frame after
the call (untouched, because only the copy is mutated); the second is the
persisted table. -/
def save_expenses_frame (df : List Expense) : List Expense × List StoredRow :=
  (df, df.map saveRow)

/-- The persisted table written by `save_expenses`. -/
def save_expenses (df : List Expense) : List StoredRow :=
  (save_expenses_frame df).2

/-! ## The Expense Repository (`add_expense`) -/

/-- `add_expense` (lines 44-55): build the normalized row (`float(amount)` is
the identity on the ℚ model of floats, the note is stripped) and append it
with `pd.concat([df, new_row], ignore_index=True)`. -/
def add_expense (df : List Expense) (expense_date : Date) (category : Str)
    (amount : ℚ) (note : Str) : List Expense :=
  df ++ [{ date := expense_date, category := category, amount := amount,
           note := trim note }]

/-- The submit handler (lines 81-87): amount ≤ 0 surfaces a validation error
(third component `true`) and changes nothing; otherwise the record is appended
and the new frame saved. -/
def handle_submit (df : List Expense) (store : Option (List StoredRow))
    (expense_date : Date) (category : Str) (amount : ℚ) (note : Str) :
    List Expense × Option (List StoredRow) × Bool :=
  if amount ≤ 0 then (df, store, true)
  else
    let df2 := add_expense df expense_date category amount note
    (df2, some (save_expenses df2), false)

/-! ## The Query/Aggregation Engine -/

/-- Stable insertion of `x` into `l`: `x` goes in front of the first element
it is `le`-below, i.e. after every earlier element with an equal key. -/
def insertLe (le : α → α → Bool) (x : α) : List α → List α
  | [] => [x]
  | y :: ys => if le x y then x :: y :: ys else y :: insertLe le x ys

/-- Stable insertion sort, the behaviour of numpy's argsort on the small
arrays this application produces (quicksort falls back to a stable insertion
sort below 16 elements). -/
def insSort (le : α → α → Bool) : List α → List α
  | [] => []
  | x :: xs => insertLe le x (insSort le xs)

/-- Order expenses by date. -/
def expenseDateLe (a b : Expense) : Bool := dateLe a.date b.date

/-- `df_display` (line 97): `df.sort_values(by="date", ascending=False)`.
pandas computes an ascending argsort of the column and reverses the indexer,
so the result is the stable ascending sort, reversed. -/
def sortedByDateDescending (df : List Expense) : List Expense :=
  (insSort expenseDateLe df).reverse

/-- One step of matching a (lowered) regex pattern against the start of a
text: `'.'` matches any character, anything else matches literally.  This
covers the fragment of Python regex syntax the proofs exercise. -/
def regexMatchHere : Str → Str → Bool
  | [], _ => true
  | _ :: _, [] => false
  | p :: ps, c :: cs => (decide (p = '.') || decide (p = c)) && regexMatchHere ps cs

/-- `re.search` semantics, as used by `Series.str.contains` (whose `regex`
parameter defaults to `True`): the pattern may match at any position. -/
def regexSearch (pat : Str) : Str → Bool
  | [] => regexMatchHere pat []
  | s@(_ :: cs) => regexMatchHere pat s || regexSearch pat cs

/-- Literal-substring occurrence (what the spec means by "contains the keyword
as a substring"). -/
def isPrefixStr : Str → Str → Bool
  | [], _ => true
  | _ :: _, [] => false
  | a :: as, b :: bs => decide (a = b) && isPrefixStr as bs

/-- Is `p` a contiguous substring of `s`? -/
def isSubstring (p : Str) : Str → Bool
  | [] => decide (p = [])
  | s@(_ :: cs) => isPrefixStr p s || isSubstring p cs

/-- `filtered` (lines 106-110): the category filter is an exact comparison,
skipped when the selection is `"All"`; the note filter runs
`note.str.lower().str.contains(search_note.strip().lower(), na=False)` —
note that `str.contains` treats the keyword as a regular expression — and is
skipped when the stripped keyword is empty. -/
def filtered (df_display : List Expense) (selected_category : Str)
    (search_note : Str) : List Expense :=
  let afterCategory :=
    if selected_category = "All".data then df_display
    else df_display.filter (fun e => decide (e.category = selected_category))
  if trim search_note = [] then afterCategory
  else afterCategory.filter
    (fun e => regexSearch (lowerStr (trim search_note)) (lowerStr e.note))

/-- `total_spent` (line 117): `df["amount"].sum()` over the full frame. -/
def total_spent (df : List Expense) : ℚ :=
  df.foldl (fun acc e => acc + e.amount) 0

/-- The summary metric of line 117 as it appears in the interaction cycle: it
is computed from `df`, never from `filtered`, so the active filter controls
are not inputs to the sum. -/
def summary_total (df : List Expense) (selected_category search_note : Str) : ℚ :=
  total_spent df

/-- The grouping stage of `by_category` (line 120):
`df.groupby("category", as_index=False)["amount"].sum()` enumerates the
distinct categories in ascending key order and sums each group's amounts. -/
def groupTotals (df : List Expense) : List (Str × ℚ) :=
  (insSort strLe (df.map (fun e => e.category)).dedup).map
    (fun c => (c, total_spent (df.filter (fun e => decide (e.category = c)))))

/-- Order category/total pairs by total. -/
def amountLe (p q : Str × ℚ) : Bool := decide (p.2 ≤ q.2)

/-- `by_category` (line 120): group totals, then
`.sort_values("amount", ascending=False)` — again the reversed stable
ascending sort. -/
def by_category (df : List Expense) : List (Str × ℚ) :=
  (insSort amountLe (groupTotals df)).reverse

/-! ## The clear-all confirmation state machine (lines 141-150) -/

/-- The two confirmation states: `Idle` when `"confirm_clear"` is absent from
`st.session_state`, `PendingConfirm` when it is present. -/
inductive ClearState
  | Idle
  | PendingConfirm
deriving DecidableEq

/-- One clear request (a click on "Clear ALL data", lines 141-150): from
`Idle` the handler only records the pending flag; from `PendingConfirm` it
unlinks the store file and resets the flag. -/
def confirm_clear : ClearState → Option (List StoredRow) →
    ClearState × Option (List StoredRow)
  | ClearState.Idle, store => (ClearState.PendingConfirm, store)
  | ClearState.PendingConfirm, _ => (ClearState.Idle, none)

/-! ## Specification-side characterizations (used only in theorem statements) -/

/-- A stored row is well-formed when its date parses and its amount is
numeric; `load_expenses` keeps exactly these rows. -/
def wellFormedRow (r : StoredRow) : Bool :=
  (parseDate r.date).isSome && r.amount.isSome

/-- The record a well-formed stored row decodes to (the default date is never
used on well-formed rows). -/
def decodeRow (r : StoredRow) : Expense :=
  { date := (parseDate r.date).getD ⟨1, 1, 1⟩
    category := if isNACell r.category then "nan".data else r.category
    amount := r.amount.getD 0
    note := if isNACell r.note then [] else r.note }

/-! ## Order lemmas -/

theorem charToNat_inj {a b : Char} (h : a.toNat = b.toNat) : a = b :=
  Char.ext (UInt32.toNat.inj h)

theorem dateLe_refl (d : Date) : dateLe d d = true := by
  simp [dateLe]

theorem dateLe_total (a b : Date) : dateLe a b = true ∨ dateLe b a = true := by
  simp only [dateLe, decide_eq_true_eq]
  omega

theorem dateLe_trans (a b c : Date) (hab : dateLe a b = true)
    (hbc : dateLe b c = true) : dateLe a c = true := by
  simp only [dateLe, decide_eq_true_eq] at *
  omega

theorem dateLe_antisymm {a b : Date} (hab : dateLe a b = true)
    (hba : dateLe b a = true) : a = b := by
  cases a with
  | mk ay am ad =>
    cases b with
    | mk by' bm bd =>
      simp only [dateLe, decide_eq_true_eq, Date.mk.injEq] at *
      omega

theorem strLe_refl (s : Str) : strLe s s = true := by
  induction s with
  | nil => rfl
  | cons c cs ih => simp [strLe, ih]

theorem strLe_total (a : Str) : ∀ b, strLe a b = true ∨ strLe b a = true := by
  induction a with
  | nil => intro b; left; rfl
  | cons x xs ih =>
    intro b
    cases b with
    | nil => right; rfl
    | cons y ys =>
      by_cases hxy : x = y
      · subst hxy
        simpa only [strLe, if_pos rfl] using ih ys
      · have hyx : ¬ y = x := fun h => hxy h.symm
        simp only [strLe, if_neg hxy, if_neg hyx, decide_eq_true_eq]
        rcases Nat.lt_trichotomy x.toNat y.toNat with h | h | h
        · exact Or.inl h
        · exact absurd (charToNat_inj h) hxy
        · exact Or.inr h

theorem strLe_trans (a : Str) : ∀ b c, strLe a b = true → strLe b c = true →
    strLe a c = true := by
  induction a with
  | nil => intro b c _ _; rfl
  | cons x xs ih =>
    intro b c hab hbc
    cases b with
    | nil => cases hab.symm.trans (rfl : strLe (x :: xs) [] = false)
    | cons y ys =>
      cases c with
      | nil => cases hbc.symm.trans (rfl : strLe (y :: ys) [] = false)
      | cons z zs =>
        by_cases hxy : x = y
        · subst hxy
          rw [strLe, if_pos rfl] at hab
          by_cases hxz : x = z
          · subst hxz
            rw [strLe, if_pos rfl] at hbc ⊢
            exact ih ys zs hab hbc
          · rw [strLe, if_neg hxz] at hbc ⊢
            exact hbc
        · rw [strLe, if_neg hxy, decide_eq_true_eq] at hab
          by_cases hyz : y = z
          · subst hyz
            rw [strLe, if_neg hxy, decide_eq_true_eq]
            exact hab
          · rw [strLe, if_neg hyz, decide_eq_true_eq] at hbc
            have hxz : ¬ x = z := by
              intro h; subst h; omega
            rw [strLe, if_neg hxz, decide_eq_true_eq]
            omega

theorem strLe_antisymm : ∀ {a b : Str}, strLe a b = true → strLe b a = true →
    a = b := by
  intro a
  induction a with
  | nil =>
    intro b _ hba
    cases b with
    | nil => rfl
    | cons y ys => cases hba.symm.trans (rfl : strLe (y :: ys) [] = false)
  | cons x xs ih =>
    intro b hab hba
    cases b with
    | nil => cases hab.symm.trans (rfl : strLe (x :: xs) [] = false)
    | cons y ys =>
      by_cases hxy : x = y
      · subst hxy
        rw [strLe, if_pos rfl] at hab hba
        rw [ih hab hba]
      · have hyx : ¬ y = x := fun h => hxy h.symm
        rw [strLe, if_neg hxy, decide_eq_true_eq] at hab
        rw [strLe, if_neg hyx, decide_eq_true_eq] at hba
        omega

/-! ## Facts about the stable insertion sort -/

theorem mem_insertLe (le : α → α → Bool) (x a : α) (l : List α) :
    a ∈ insertLe le x l ↔ a = x ∨ a ∈ l := by
  induction l with
  | nil => simp [insertLe]
  | cons y ys ih =>
    cases hxy : le x y <;> simp [insertLe, hxy, ih] <;> tauto

theorem perm_insertLe (le : α → α → Bool) (x : α) (l : List α) :
    List.Perm (insertLe le x l) (x :: l) := by
  induction l with
  | nil => rfl
  | cons y ys ih =>
    cases hxy : le x y
    · simp only [insertLe, hxy, Bool.false_eq_true, if_false]
      exact (ih.cons y).trans (List.Perm.swap x y ys)
    · simp [insertLe, hxy]

theorem perm_insSort (le : α → α → Bool) (l : List α) :
    List.Perm (insSort le l) l := by
  induction l with
  | nil => rfl
  | cons x xs ih =>
    exact (perm_insertLe le x (insSort le xs)).trans (ih.cons x)

theorem pairwise_insertLe {le : α → α → Bool}
    (htot : ∀ a b, le a b = true ∨ le b a = true)
    (htrans : ∀ a b c, le a b = true → le b c = true → le a c = true)
    (x : α) {l : List α} (hl : l.Pairwise (fun a b => le a b = true)) :
    (insertLe le x l).Pairwise (fun a b => le a b = true) := by
  induction l with
  | nil => simp [insertLe]
  | cons y ys ih =>
    rcases List.pairwise_cons.mp hl with ⟨hy, hys⟩
    cases hxy : le x y
    · have hyx : le y x = true := (htot x y).resolve_left (by simp [hxy])
      simp only [insertLe, hxy, Bool.false_eq_true, if_false]
      refine List.pairwise_cons.mpr ⟨?_, ih hys⟩
      intro b hb
      rcases (mem_insertLe le x b ys).mp hb with rfl | hbys
      · exact hyx
      · exact hy b hbys
    · simp only [insertLe, hxy, if_true]
      refine List.pairwise_cons.mpr ⟨?_, hl⟩
      intro b hb
      rcases List.mem_cons.mp hb with rfl | hbys
      · exact hxy
      · exact htrans x y b hxy (hy b hbys)

theorem pairwise_insSort {le : α → α → Bool}
    (htot : ∀ a b, le a b = true ∨ le b a = true)
    (htrans : ∀ a b c, le a b = true → le b c = true → le a c = true)
    (l : List α) : (insSort le l).Pairwise (fun a b => le a b = true) := by
  induction l with
  | nil => exact List.Pairwise.nil
  | cons x xs ih => exact pairwise_insertLe htot htrans x ih

theorem filter_insertLe_of_pos {le : α → α → Bool} {p : α → Bool} {x : α}
    (hx : p x = true) (hskip : ∀ y, le x y = false → p y = false)
    (l : List α) : (insertLe le x l).filter p = x :: l.filter p := by
  induction l with
  | nil => simp [insertLe, hx]
  | cons y ys ih =>
    cases hxy : le x y
    · have hpy : p y = false := hskip y hxy
      simp [insertLe, hxy, hpy, ih]
    · simp [insertLe, hxy, hx]

theorem filter_insertLe_of_neg {le : α → α → Bool} {p : α → Bool} {x : α}
    (hx : p x = false) (l : List α) :
    (insertLe le x l).filter p = l.filter p := by
  induction l with
  | nil => simp [insertLe, hx]
  | cons y ys ih =>
    cases hxy : le x y
    · cases hpy : p y <;> simp [insertLe, hxy, hpy, ih]
    · simp [insertLe, hxy, hx]

/-- Stability of the insertion sort, in filter form: a predicate that only
looks at the sort key (elements satisfying it are never strictly reordered)
selects the same subsequence before and after sorting. -/
theorem filter_insSort {le : α → α → Bool} {p : α → Bool}
    (hcompat : ∀ a b, p a = true → le a b = false → p b = false)
    (l : List α) : (insSort le l).filter p = l.filter p := by
  induction l with
  | nil => rfl
  | cons x xs ih =>
    cases hx : p x
    · rw [insSort, filter_insertLe_of_neg hx, ih, List.filter_cons_of_neg]
      simp [hx]
    · rw [insSort, filter_insertLe_of_pos hx (fun y hy => hcompat x y hx hy), ih,
        List.filter_cons_of_pos]
      simp [hx]

/-! ## The ISO date codec round-trips -/

theorem digitsAux_eq (fuel : Nat) : ∀ n, n ≤ fuel →
    digitsAux fuel n = Nat.digits 10 n := by
  induction fuel with
  | zero =>
    intro n hn
    have : n = 0 := by omega
    subst this
    simp [digitsAux]
  | succ f ih =>
    intro n hn
    match n with
    | 0 => simp [digitsAux]
    | n + 1 =>
      have hdiv : (n + 1) / 10 < n + 1 := Nat.div_lt_self (Nat.succ_pos n) (by norm_num)
      rw [digitsAux, ih ((n + 1) / 10) (by omega),
        Nat.digits_def' (by norm_num : (1:ℕ) < 10) (Nat.succ_pos n)]

theorem natDigits_eq (n : Nat) : natDigits n = Nat.digits 10 n :=
  digitsAux_eq n n le_rfl

theorem natDigits_lt (n : Nat) : ∀ d ∈ natDigits n, d < 10 := by
  rw [natDigits_eq]
  exact fun d hd => Nat.digits_lt_base (by norm_num) hd

theorem length_natChars_le {w n : Nat} (h : n < 10 ^ w) :
    (natChars n).length ≤ w := by
  have hlen : (natChars n).length = (Nat.digits 10 n).length := by
    simp [natChars, natDigits_eq]
  rw [hlen]
  rcases Nat.eq_zero_or_pos n with rfl | hn
  · simp
  · have hlog : Nat.log 10 n < w := Nat.log_lt_of_lt_pow (by omega) h
    rw [Nat.digits_len 10 n (by norm_num) (by omega)]
    omega

theorem length_padNum {w n : Nat} (h : n < 10 ^ w) : (padNum w n).length = w := by
  have hle := length_natChars_le h
  simp only [padNum, List.length_append, List.length_replicate]
  omega

theorem digitVal_digitChar : ∀ d, d < 10 → digitVal (digitChar d) = d := by decide

theorem isDigit_digitChar : ∀ d, d < 10 → (digitChar d).isDigit = true := by decide

theorem ofDigits_replicate_zero (k : Nat) :
    Nat.ofDigits 10 (List.replicate k 0) = 0 := by
  induction k with
  | zero => rfl
  | succ j ih => simp [List.replicate, Nat.ofDigits_cons, ih]

theorem map_digitVal_natChars (n : Nat) :
    (natChars n).map digitVal = (natDigits n).reverse := by
  unfold natChars
  rw [List.map_map]
  have : (natDigits n).reverse.map (digitVal ∘ digitChar) =
      (natDigits n).reverse.map id := by
    apply List.map_congr_left
    intro d hd
    exact digitVal_digitChar d (natDigits_lt n d (List.mem_reverse.mp hd))
  rw [this, List.map_id]

theorem parseNat_padNum {w n : Nat} (hw : 1 ≤ w) (h : n < 10 ^ w) :
    parseNatAux (padNum w n) = some n := by
  unfold parseNatAux
  rw [if_pos]
  · congr 1
    rw [padNum, List.map_append, List.map_replicate, map_digitVal_natChars]
    have hz : digitVal '0' = 0 := rfl
    rw [hz, List.reverse_append, List.reverse_reverse, List.reverse_replicate]
    rw [Nat.ofDigits_append, ofDigits_replicate_zero, Nat.mul_zero, Nat.add_zero,
      natDigits_eq, Nat.ofDigits_digits]
  · constructor
    · have hlen := length_padNum h
      intro he
      rw [he] at hlen
      simp at hlen
      omega
    · rw [List.all_eq_true]
      intro c hc
      rcases List.mem_append.mp hc with hrep | hdig
      · rw [(List.mem_replicate.mp hrep).2]
        rfl
      · rcases List.mem_map.mp hdig with ⟨d, hd, rfl⟩
        exact isDigit_digitChar d (natDigits_lt n d (List.mem_reverse.mp hd))

theorem expectDash_dash (rest : Str) : expectDash ('-' :: rest) = some rest := rfl

theorem daysInMonth_le (y m : Nat) : daysInMonth y m ≤ 31 := by
  unfold daysInMonth
  split
  · split <;> omega
  · split <;> omega

/-- The store codec's date round-trip: the ISO text written for a valid,
in-bounds date parses back to the same calendar date. -/
theorem parseDate_dateToChars {d : Date} (hv : ValidDate d)
    (hb : InTimestampBounds d) : parseDate (dateToChars d) = some d := by
  obtain ⟨hy1, hy2, hm1, hm2, hd1, hd2⟩ := hv
  obtain ⟨hlo, hhi⟩ := hb
  have hylt : d.year < 10 ^ 4 := by norm_num; omega
  have hmlt : d.month < 10 ^ 2 := by norm_num; omega
  have hdaysle := daysInMonth_le d.year d.month
  have hdlt : d.day < 10 ^ 2 := by norm_num; omega
  have hA : (padNum 4 d.year).length = 4 := length_padNum hylt
  have hB : (padNum 2 d.month).length = 2 := length_padNum hmlt
  show parseDate (padNum 4 d.year ++ '-' ::
    (padNum 2 d.month ++ '-' :: padNum 2 d.day)) = some d
  unfold parseDate
  rw [List.take_left' hA, List.drop_left' hA, parseNat_padNum (by norm_num) hylt,
    Option.some_bind, expectDash_dash, Option.some_bind,
    List.take_left' hB, List.drop_left' hB, parseNat_padNum (by norm_num) hmlt,
    Option.some_bind, expectDash_dash, Option.some_bind,
    parseNat_padNum (by norm_num) hdlt, Option.some_bind,
    if_pos ⟨hy1, hm1, hm2, hd1, hd2, hlo, hhi⟩]

/-! ## Totals -/

theorem foldl_add_amount (l : List Expense) : ∀ acc : ℚ,
    l.foldl (fun a e => a + e.amount) acc = acc + (l.map (fun e => e.amount)).sum := by
  induction l with
  | nil => intro acc; simp
  | cons e es ih =>
    intro acc
    rw [List.foldl_cons, ih, List.map_cons, List.sum_cons]
    ring

theorem total_spent_eq_sum (l : List Expense) :
    total_spent l = (l.map (fun e => e.amount)).sum := by
  rw [total_spent, foldl_add_amount, zero_add]

theorem sum_map_filter_split (l : List Expense) (p : Expense → Bool) :
    (((l.filter p).map (fun e => e.amount)).sum : ℚ) +
      ((l.filter (fun a => !p a)).map (fun e => e.amount)).sum =
      (l.map (fun e => e.amount)).sum := by
  induction l with
  | nil => simp
  | cons e es ih =>
    cases hp : p e <;>
      simp [List.filter_cons, hp, List.sum_cons, ← ih] <;> ring

/-- Summing the per-category totals over any duplicate-free cover of the
categories present gives the total over the whole frame. -/
theorem sum_totals_over_partition : ∀ (cats : List Str) (l : List Expense),
    cats.Nodup → (∀ e ∈ l, e.category ∈ cats) →
    (cats.map (fun c =>
      total_spent (l.filter (fun e => decide (e.category = c))))).sum
      = total_spent l := by
  intro cats
  induction cats with
  | nil =>
    intro l _ hcov
    have : l = [] := List.eq_nil_iff_forall_not_mem.mpr
      (fun e he => by simpa using hcov e he)
    subst this
    rfl
  | cons c cs ih =>
    intro l hnd hcov
    rcases List.nodup_cons.mp hnd with ⟨hcn, hnd'⟩
    rw [List.map_cons, List.sum_cons]
    have hrest : (cs.map (fun c2 =>
        total_spent (l.filter (fun e => decide (e.category = c2))))).sum =
        (cs.map (fun c2 =>
          total_spent ((l.filter (fun e => !decide (e.category = c))).filter
            (fun e => decide (e.category = c2))))).sum := by
      apply congrArg
      apply List.map_congr_left
      intro c2 hc2
      have hne : c2 ≠ c := fun h => hcn (h ▸ hc2)
      congr 1
      rw [List.filter_filter]
      apply (List.filter_congr ?_).symm
      intro e _
      cases he : decide (e.category = c2)
      · rfl
      · have : e.category = c2 := of_decide_eq_true he
        have : ¬ (e.category = c) := fun h2 => hne (this.symm.trans h2)
        simp [decide_eq_false this]
    rw [hrest, ih (l.filter (fun e => !decide (e.category = c))) hnd' ?_]
    · rw [total_spent_eq_sum, total_spent_eq_sum,
        total_spent_eq_sum (l := l)]
      exact sum_map_filter_split l (fun e => decide (e.category = c))
    · intro e he
      rcases List.mem_filter.mp he with ⟨hel, hne⟩
      rcases List.mem_cons.mp (hcov e hel) with h | h
      · rw [h] at hne
        simp at hne
      · exact h

/-! ## Claim theorems -/

/-- C3.  Append postcondition: for every record sequence and input,
`add_expense` returns a sequence one longer, whose prefix is the original
sequence unchanged and whose last element is the normalized new record (given
date and category, the amount, and the whitespace-stripped note). -/
theorem c3_add_expense_postcondition (df : List Expense) (expense_date : Date)
    (category : Str) (amount : ℚ) (note : Str) :
    (add_expense df expense_date category amount note).length = df.length + 1 ∧
    (add_expense df expense_date category amount note).take df.length = df ∧
    (add_expense df expense_date category amount note).getLast? =
      some { date := expense_date, category := category, amount := amount,
             note := trim note } := by
  refine ⟨by simp [add_expense], ?_, ?_⟩
  · exact List.take_left df _
  · rw [add_expense, List.getLast?_concat]

/-- C4.  Total-spent postcondition: `total_spent` is the sum of the amounts of
the full record sequence (`0` on the empty sequence), and the summary metric
of line 117 is computed from the unfiltered frame, so its value is the same
whatever category selection and keyword are active. -/
theorem c4_total_spent_correct (df : List Expense)
    (selCat keyword selCat2 keyword2 : Str) :
    total_spent df = (df.map (fun e => e.amount)).sum ∧
    total_spent ([] : List Expense) = 0 ∧
    summary_total df selCat keyword = summary_total df selCat2 keyword2 :=
  ⟨total_spent_eq_sum df, rfl, rfl⟩

/-- C5.  Load tolerance: a missing store file loads as the empty sequence, and
a stored table loads to exactly its well-formed rows (rows whose date cell
parses as a calendar date and whose amount cell is numeric), in order, with an
absent/NA note defaulting to the empty string and the category cell kept
without validation. -/
theorem c5_load_tolerance :
    load_expenses none = [] ∧
    ∀ rows : List StoredRow,
      load_expenses (some rows) = (rows.filter wellFormedRow).map decodeRow := by
  refine ⟨rfl, ?_⟩
  intro rows
  induction rows with
  | nil => rfl
  | cons r rs ih =>
    show (r :: rs).filterMap loadRow = _
    rw [List.filterMap_cons]
    cases hd : parseDate r.date with
    | none =>
      have hw : wellFormedRow r = false := by simp [wellFormedRow, hd]
      have hl : loadRow r = none := by
        unfold loadRow
        rw [hd]
      rw [hl]
      show rs.filterMap loadRow = _
      rw [show rs.filterMap loadRow = load_expenses (some rs) from rfl, ih,
        List.filter_cons_of_neg (by simp [hw])]
    | some d0 =>
      cases ha : r.amount with
      | none =>
        have hw : wellFormedRow r = false := by simp [wellFormedRow, ha]
        have hl : loadRow r = none := by
          unfold loadRow
          rw [hd, ha]
        rw [hl]
        show rs.filterMap loadRow = _
        rw [show rs.filterMap loadRow = load_expenses (some rs) from rfl, ih,
          List.filter_cons_of_neg (by simp [hw])]
      | some a =>
        have hw : wellFormedRow r = true := by simp [wellFormedRow, hd, ha]
        have hl : loadRow r = some (decodeRow r) := by
          unfold loadRow decodeRow
          rw [hd, ha]
          rfl
        rw [hl]
        show decodeRow r :: rs.filterMap loadRow = _
        rw [show rs.filterMap loadRow = load_expenses (some rs) from rfl, ih,
          List.filter_cons_of_pos (by simp [hw]), List.map_cons]

/-- C6.  Clear-all two-step state machine: a clear request in `Idle` moves to
`PendingConfirm` and leaves the store untouched (so the store is never deleted
from `Idle`); a clear request in `PendingConfirm` returns to `Idle` and deletes
the whole store, after which a load yields the empty sequence. -/
theorem c6_clear_two_step (store : Option (List StoredRow)) :
    confirm_clear ClearState.Idle store = (ClearState.PendingConfirm, store) ∧
    (confirm_clear ClearState.PendingConfirm store).1 = ClearState.Idle ∧
    load_expenses (confirm_clear ClearState.PendingConfirm store).2 = [] :=
  ⟨rfl, rfl, rfl⟩

/-- C7.  Validation atomicity: submitting an amount ≤ 0 surfaces the
validation error and leaves both the in-memory frame and the persisted store
exactly as they were — no record is appended and no save happens. -/
theorem c7_validation_atomicity (df : List Expense)
    (store : Option (List StoredRow)) (expense_date : Date) (category : Str)
    (amount : ℚ) (note : Str) (h : amount ≤ 0) :
    handle_submit df store expense_date category amount note =
      (df, store, true) := by
  simp [handle_submit, h]

/-- Witness for C7 at the concrete input amount `0`. -/
theorem c7_validation_atomicity_witness :
    ((0 : ℚ) ≤ 0) ∧
    handle_submit [] none ⟨2024, 1, 5⟩ ("Food".data) 0 ("x".data) =
      ([], none, true) :=
  ⟨by decide,
    c7_validation_atomicity [] none ⟨2024, 1, 5⟩ ("Food".data) 0 ("x".data)
      (by decide)⟩

/-- C10.  Save does not mutate its input: `save_expenses` stringifies the date
column of a copy (`df.copy()`), so after the call the caller's frame is the
very sequence it passed in — in particular every record still carries its
calendar date, not the serialized ISO text. -/
theorem c10_save_preserves_frame (df : List Expense) :
    (save_expenses_frame df).1 = df ∧
    (save_expenses_frame df).1.map (fun e => e.date) = df.map (fun e => e.date) :=
  ⟨rfl, rfl⟩

theorem categories_not_na {c : Str} (h : c ∈ CATEGORIES) : isNACell c = false := by
  simp only [CATEGORIES, List.mem_cons, List.not_mem_nil, or_false] at h
  rcases h with rfl | rfl | rfl | rfl | rfl | rfl | rfl | rfl <;> decide

theorem loadRow_saveRow {e : Expense} (hv : ValidDate e.date)
    (hb : InTimestampBounds e.date) (hcat : isNACell e.category = false)
    (hnote : isNACell e.note = true → e.note = []) :
    loadRow (saveRow e) = some e := by
  obtain ⟨d0, c0, a0, n0⟩ := e
  unfold loadRow saveRow
  rw [parseDate_dateToChars hv hb]
  show some ({ date := d0
               category := if isNACell c0 then "nan".data else c0
               amount := a0
               note := if isNACell n0 then [] else n0 } : Expense) =
    some (⟨d0, c0, a0, n0⟩ : Expense)
  rw [hcat]
  cases hna : isNACell n0
  · rfl
  · have hn0 : n0 = [] := hnote hna
    subst hn0
    rfl

/-- C1 (amended).  Round-trip persistence: saving a sequence of valid records
and loading it back returns the same sequence — including records whose note
is the empty string — provided every date lies inside the pandas timestamp
window (1677-09-22 to 2262-04-11, the dates whose midnight fits a nanosecond
timestamp; dates outside it are coerced to NaT and the row dropped) and no
non-empty note equals one of pandas' NA sentinel strings ("NA", "NaN",
"null", ... — such notes load back as the empty string).  Dates compare as
calendar dates and amounts within float tolerance, per the codec model. -/
theorem c1_save_load_roundtrip (records : List Expense)
    (h : ∀ e ∈ records, ValidDate e.date ∧ InTimestampBounds e.date ∧
      e.category ∈ CATEGORIES ∧ (isNACell e.note = true → e.note = [])) :
    load_expenses (some (save_expenses records)) = records := by
  induction records with
  | nil => rfl
  | cons e es ih =>
    obtain ⟨hv, hb, hcat, hnote⟩ := h e (List.mem_cons_self e es)
    show (saveRow e :: es.map saveRow).filterMap loadRow = e :: es
    rw [List.filterMap_cons, loadRow_saveRow hv hb (categories_not_na hcat) hnote]
    show e :: (es.map saveRow).filterMap loadRow = e :: es
    rw [show (es.map saveRow).filterMap loadRow =
      load_expenses (some (save_expenses es)) from rfl,
      ih (fun x hx => h x (List.mem_cons_of_mem e hx))]

/-- Witness for C1 (amended) at a concrete two-record sequence, one record
with a non-empty note and one with the empty note. -/
theorem c1_save_load_roundtrip_witness :
    (∀ e ∈ ([⟨⟨2024, 1, 5⟩, "Food".data, 25, "lunch".data⟩,
             ⟨⟨2024, 1, 6⟩, "Rent".data, 500, []⟩] : List Expense),
      ValidDate e.date ∧ InTimestampBounds e.date ∧
        e.category ∈ CATEGORIES ∧ (isNACell e.note = true → e.note = [])) ∧
    load_expenses (some (save_expenses
      [⟨⟨2024, 1, 5⟩, "Food".data, 25, "lunch".data⟩,
       ⟨⟨2024, 1, 6⟩, "Rent".data, 500, []⟩])) =
      [⟨⟨2024, 1, 5⟩, "Food".data, 25, "lunch".data⟩,
       ⟨⟨2024, 1, 6⟩, "Rent".data, 500, []⟩] :=
  ⟨by decide, c1_save_load_roundtrip _ (by decide)⟩

/-- C1 counterexample: the claim as stated fails on two kinds of valid
records, each forcing one proviso of the amendment.  (1) A record whose note
is the text "NA": `to_csv` writes the cell as `NA`, `read_csv` reads it back
as NaN, and `fillna("")` turns it into the empty string, so the loaded
sequence differs from the saved one in the note field (which the claim's
date/number serialization allowance does not cover).  (2) A record dated
1677-09-21 — a perfectly valid calendar date with an ordinary note — whose
midnight underflows `pd.Timestamp.min` (1677-09-21 00:12:43), so
`pd.to_datetime(..., errors="coerce")` yields NaT and the loaded sequence
drops the record entirely. -/
theorem c1_roundtrip_counterexample :
    (load_expenses (some (save_expenses
      [⟨⟨2024, 1, 5⟩, "Food".data, 12, "NA".data⟩])) =
      [⟨⟨2024, 1, 5⟩, "Food".data, 12, []⟩] ∧
    load_expenses (some (save_expenses
      [⟨⟨2024, 1, 5⟩, "Food".data, 12, "NA".data⟩])) ≠
      [⟨⟨2024, 1, 5⟩, "Food".data, 12, "NA".data⟩]) ∧
    ValidDate (⟨1677, 9, 21⟩ : Date) ∧
    load_expenses (some (save_expenses
      [⟨⟨1677, 9, 21⟩, "Food".data, 12, "x".data⟩])) = [] := by
  refine ⟨⟨by decide, by decide⟩, by decide, by decide⟩

/-- C2.  The note filter treats the keyword as a regular expression, not a
literal substring: with keyword "." (which the spec's substring reading would
match against no note lacking a '.') the code keeps a record whose note is
"x", because `Series.str.contains` defaults to `regex=True` and the pattern
`.` matches any character.  (A keyword like "(" is even an invalid regex and
raises an error.)  This contradicts the specified substring semantics; the
spec describes the evident intent of a keyword search box, so the code
behaviour is the defect. -/
theorem c2_keyword_is_regex_not_substring :
    filtered [⟨⟨2024, 1, 5⟩, "Food".data, 1, "x".data⟩]
        ("All".data) (".".data) =
      [⟨⟨2024, 1, 5⟩, "Food".data, 1, "x".data⟩] ∧
    isSubstring (lowerStr (trim (".".data))) (lowerStr ("x".data)) = false := by
  constructor
  · decide
  · decide

theorem expenseDateLe_total (a b : Expense) :
    expenseDateLe a b = true ∨ expenseDateLe b a = true :=
  dateLe_total a.date b.date

theorem expenseDateLe_trans (a b c : Expense) (hab : expenseDateLe a b = true)
    (hbc : expenseDateLe b c = true) : expenseDateLe a c = true :=
  dateLe_trans a.date b.date c.date hab hbc

/-- C8 (amended).  `df_display` orders the records by date with the most
recent date first and permutes the input, but the sort is not stable: since
pandas reverses the ascending argsort indexer for `ascending=False`, records
with equal dates appear in reversed original relative order (for every date
`v`, the equal-date run is the reverse of the input's `v`-dated
subsequence). -/
theorem c8_sort_by_date_descending (df : List Expense) :
    List.Perm (sortedByDateDescending df) df ∧
    (sortedByDateDescending df).Pairwise
      (fun a b => dateLe b.date a.date = true) ∧
    ∀ v : Date,
      (sortedByDateDescending df).filter (fun e => decide (e.date = v)) =
        (df.filter (fun e => decide (e.date = v))).reverse := by
  refine ⟨?_, ?_, ?_⟩
  · exact (List.reverse_perm _).trans (perm_insSort expenseDateLe df)
  · rw [sortedByDateDescending, List.pairwise_reverse]
    exact pairwise_insSort expenseDateLe_total expenseDateLe_trans df
  · intro v
    rw [sortedByDateDescending, List.filter_reverse]
    congr 1
    apply filter_insSort
    intro a b ha hle
    cases hbv : decide (b.date = v)
    · rfl
    · exfalso
      have hav : a.date = v := of_decide_eq_true ha
      have hbv2 : b.date = v := of_decide_eq_true hbv
      have : expenseDateLe a b = true := by
        unfold expenseDateLe
        rw [hav, hbv2]
        exact dateLe_refl v
      rw [this] at hle
      cases hle

/-- C8 counterexample: two distinct records with equal dates come back in
reversed input order, so ties are not broken by original position as the
claim states. -/
theorem c8_stability_counterexample :
    sortedByDateDescending
      [⟨⟨2024, 1, 5⟩, "Food".data, 1, "a".data⟩,
       ⟨⟨2024, 1, 5⟩, "Rent".data, 1, "b".data⟩] =
      [⟨⟨2024, 1, 5⟩, "Rent".data, 1, "b".data⟩,
       ⟨⟨2024, 1, 5⟩, "Food".data, 1, "a".data⟩] ∧
    (⟨⟨2024, 1, 5⟩, "Food".data, 1, "a".data⟩ : Expense) ≠
      ⟨⟨2024, 1, 5⟩, "Rent".data, 1, "b".data⟩ ∧
    (⟨⟨2024, 1, 5⟩, "Food".data, 1, "a".data⟩ : Expense).date =
      (⟨⟨2024, 1, 5⟩, "Rent".data, 1, "b".data⟩ : Expense).date := by
  refine ⟨by decide, by decide, rfl⟩

theorem amountLe_total (p q : Str × ℚ) :
    amountLe p q = true ∨ amountLe q p = true := by
  unfold amountLe
  rcases le_total p.2 q.2 with h | h
  · exact Or.inl (decide_eq_true h)
  · exact Or.inr (decide_eq_true h)

theorem amountLe_trans (p q r : Str × ℚ) (hpq : amountLe p q = true)
    (hqr : amountLe q r = true) : amountLe p r = true := by
  unfold amountLe at *
  exact decide_eq_true ((of_decide_eq_true hpq).trans (of_decide_eq_true hqr))

theorem map_fst_groupTotals (df : List Expense) :
    (groupTotals df).map Prod.fst =
      insSort strLe (df.map (fun e => e.category)).dedup := by
  rw [groupTotals, List.map_map]
  exact List.map_id _

theorem map_snd_groupTotals (df : List Expense) :
    (groupTotals df).map Prod.snd =
      (insSort strLe (df.map (fun e => e.category)).dedup).map
        (fun c => total_spent (df.filter (fun e => decide (e.category = c)))) := by
  rw [groupTotals, List.map_map]
  rfl

/-- C9 (amended).  `by_category` yields one pair per distinct category, each
total being the sum of that category's amounts; the pairs are ordered by
descending total, the totals sum to `total_spent` of the full sequence, and
ties are broken deterministically — but in descending lexicographic category
order (the groupby stage enumerates categories in ascending name order and
the descending sort reverses equal-total runs), not by input order. -/
theorem c9_by_category (df : List Expense) :
    List.Perm ((by_category df).map Prod.fst)
      (df.map (fun e => e.category)).dedup ∧
    (by_category df).map Prod.snd = ((by_category df).map Prod.fst).map
      (fun c => total_spent (df.filter (fun e => decide (e.category = c)))) ∧
    (by_category df).Pairwise (fun p q => q.2 ≤ p.2) ∧
    ((by_category df).map Prod.snd).sum = total_spent df ∧
    ∀ v : ℚ,
      (((by_category df).filter (fun p => decide (p.2 = v))).map
        Prod.fst).Pairwise (fun a b => strLe a b = false) := by
  have hcats_perm :
      List.Perm (insSort strLe (df.map (fun e => e.category)).dedup)
        (df.map (fun e => e.category)).dedup :=
    perm_insSort strLe _
  have hnodup_cats : (insSort strLe (df.map (fun e => e.category)).dedup).Nodup :=
    hcats_perm.nodup_iff.mpr (List.nodup_dedup _)
  have hsorted_cats :
      (insSort strLe (df.map (fun e => e.category)).dedup).Pairwise
        (fun a b => strLe a b = true) :=
    pairwise_insSort strLe_total strLe_trans _
  have hstrict_cats :
      (insSort strLe (df.map (fun e => e.category)).dedup).Pairwise
        (fun a b => strLe b a = false) := by
    have hne : (insSort strLe (df.map (fun e => e.category)).dedup).Pairwise
        (fun a b => a ≠ b) := hnodup_cats
    refine (hsorted_cats.and hne).imp ?_
    intro a b hab
    cases h : strLe b a
    · rfl
    · exact absurd (strLe_antisymm hab.1 h) hab.2
  have hcompat : ∀ p q : Str × ℚ, ∀ v : ℚ, decide (p.2 = v) = true →
      amountLe p q = false → decide (q.2 = v) = false := by
    intro p q v hp hle
    cases hq : decide (q.2 = v)
    · rfl
    · exfalso
      have hpv : p.2 = v := of_decide_eq_true hp
      have hqv : q.2 = v := of_decide_eq_true hq
      have : amountLe p q = true := by
        unfold amountLe
        rw [hpv, hqv]
        exact decide_eq_true le_rfl
      rw [this] at hle
      cases hle
  refine ⟨?_, ?_, ?_, ?_, ?_⟩
  · rw [by_category, List.map_reverse]
    refine (List.reverse_perm _).trans ?_
    refine ((perm_insSort amountLe (groupTotals df)).map Prod.fst).trans ?_
    rw [map_fst_groupTotals]
    exact hcats_perm
  · rw [List.map_map]
    apply List.map_congr_left
    intro p hp
    have hp2 : p ∈ groupTotals df := by
      rw [by_category, List.mem_reverse] at hp
      exact ((perm_insSort amountLe (groupTotals df)).mem_iff).mp hp
    rcases List.mem_map.mp hp2 with ⟨c, _, rfl⟩
    rfl
  · rw [by_category, List.pairwise_reverse]
    refine (pairwise_insSort amountLe_total amountLe_trans _).imp ?_
    intro p q h
    exact of_decide_eq_true h
  · rw [by_category, List.map_reverse, List.sum_reverse,
      ((perm_insSort amountLe (groupTotals df)).map Prod.snd).sum_eq,
      map_snd_groupTotals]
    apply sum_totals_over_partition _ df hnodup_cats
    intro e he
    exact (hcats_perm.mem_iff).mpr
      (List.mem_dedup.mpr (List.mem_map_of_mem _ he))
  · intro v
    rw [by_category, List.filter_reverse,
      filter_insSort (fun p q hp hle => hcompat p q v hp hle) (groupTotals df),
      List.map_reverse, List.pairwise_reverse]
    have hsub : List.Sublist
        (((groupTotals df).filter (fun p => decide (p.2 = v))).map Prod.fst)
        ((groupTotals df).map Prod.fst) :=
      (List.filter_sublist (groupTotals df)).map Prod.fst
    rw [map_fst_groupTotals] at hsub
    exact hstrict_cats.sublist hsub

/-- C9 counterexample: with the records entered in the order Food then Rent
and equal totals, `by_category` returns Rent before Food — reverse
alphabetical, not the claimed input (first-appearance) order. -/
theorem c9_tie_order_counterexample :
    by_category
      [⟨⟨2024, 1, 5⟩, "Food".data, 1, []⟩,
       ⟨⟨2024, 1, 6⟩, "Rent".data, 1, []⟩] =
      [("Rent".data, (1 : ℚ)), ("Food".data, (1 : ℚ))] ∧
    by_category
      [⟨⟨2024, 1, 5⟩, "Food".data, 1, []⟩,
       ⟨⟨2024, 1, 6⟩, "Rent".data, 1, []⟩] ≠
      [("Food".data, (1 : ℚ)), ("Rent".data, (1 : ℚ))] := by
  have heq : by_category
      [⟨⟨2024, 1, 5⟩, "Food".data, 1, []⟩,
       ⟨⟨2024, 1, 6⟩, "Rent".data, 1, []⟩] =
      [("Rent".data, (1 : ℚ)), ("Food".data, (1 : ℚ))] := by
    norm_num +decide [by_category, groupTotals, insSort, insertLe, total_spent,
      List.dedup, amountLe, strLe, List.filter]
  refine ⟨heq, ?_⟩
  rw [heq]
  decide

end ExpenseTracker
